import Mathlib

/-!
Shallow embedding of the PDB/MOL2 reprocessing core (pdb_mol2_process.py).

An input atom line ("ATOM"/"HETATM" record) is modelled by the column
slices the program actually reads: the atom-name field (columns 12:16),
the residue-name field (columns 17:20), the element field (columns 76:78,
empty when the line is shorter than 78 characters), and the three
coordinate fields.  Coordinate values are carried opaquely as an integer
triple; successful float parsing of all three fields is modelled by the
Option being some (none models the ValueError path).
-/

namespace PdbProc

/-- Python str.strip over the character list of a string. -/
def pstrip (s : String) : String :=
  String.mk (((s.data.dropWhile Char.isWhitespace).reverse.dropWhile Char.isWhitespace).reverse)

/-- Python str.upper. -/
def pupper (s : String) : String :=
  String.mk (s.data.map Char.toUpper)

/-- Python str.capitalize: first character upper-cased, the rest lower-cased. -/
def pcapitalize (s : String) : String :=
  match s.data with
  | [] => ""
  | c :: cs => String.mk (c.toUpper :: cs.map Char.toLower)

/-- Model of re.sub applied with the pattern that deletes every non-alphabetic character. -/
def filterAlpha (s : String) : String :=
  String.mk (s.data.filter Char.isAlpha)

/-- Opaque carrier for the three parsed coordinates. -/
abbrev Coord := Int × Int × Int

/-- Column content of one raw ATOM/HETATM line, as read by the program. -/
structure AtomRecord where
  name : String
  resName : String
  elemCol : String
  coords : Option Coord
deriving DecidableEq, Repr

/-- Embedding of get_pdb_element: explicit element column first, then the
name-based fallback with the halogen special cases. -/
def get_pdb_element (r : AtomRecord) : String :=
  let e := pstrip r.elemCol
  if e ≠ "" then pcapitalize e
  else
    let nm := pstrip r.name
    let el := filterAlpha nm
    if (pupper el).startsWith "CL" then "Cl"
    else if (pupper el).startsWith "BR" then "Br"
    else if el.startsWith "H" then "H"
    else pcapitalize el

/-- Fixed ion-name set from auto_detect_counts. -/
def ionNames : List String := ["CL-", "CL", "NA", "NA+", "K", "K+", "MG", "MG2+"]

/-- Ion test of the detection scan: residue name or atom name in the ion set.
The scan stops at the first record failing this test whether or not it looks
like water, so the water sets do not influence the computed counts. -/
def isIonRec (r : AtomRecord) : Bool :=
  ionNames.contains (pupper (pstrip r.resName)) || ionNames.contains (pupper (pstrip r.name))

/-- Stripped atom-name field, the quantity compared during the oligomer scan. -/
def stripName (r : AtomRecord) : String := pstrip r.name

/-- Oligomer-count scan of auto_detect_counts: repeatedly match the next
window of atoms_per_olig records against the captured name pattern and
advance; the fuel argument makes the (possibly diverging, see the
atoms_per_olig = 0 case) while loop a total function, with none modelling
non-termination within the given fuel. -/
def scanUnits : Nat → List String → Nat → List AtomRecord → Option (Nat × List AtomRecord)
  | 0, _, _, _ => none
  | fuel + 1, pat, apu, rest =>
    if apu ≤ rest.length then
      if (rest.take apu).map stripName = pat then
        (scanUnits fuel pat apu (rest.drop apu)).map (fun p => (p.1 + 1, p.2))
      else some (0, rest)
    else some (0, rest)

/-- Ion-count scan: count leading records passing the ion test. -/
def ionScan : List AtomRecord → Nat × List AtomRecord
  | [] => (0, [])
  | r :: rs =>
    if isIonRec r then
      let p := ionScan rs
      (p.1 + 1, p.2)
    else (0, r :: rs)

/-- Water-count scan: count leading 3-record groups whose classified
elements are O, H, H. -/
def waterScan : List AtomRecord → Nat × List AtomRecord
  | r1 :: r2 :: r3 :: rs =>
    if get_pdb_element r1 = "O" ∧ get_pdb_element r2 = "H" ∧ get_pdb_element r3 = "H" then
      let p := waterScan rs
      (p.1 + 1, p.2)
    else (0, r1 :: r2 :: r3 :: rs)
  | l => (0, l)

/-- Embedding of auto_detect_counts with explicit fuel for the oligomer
scan; none models divergence of that scan. -/
def auto_detect_counts_fuel (fuel : Nat) (recs : List AtomRecord) (apu : Nat) :
    Option (Nat × Nat × Nat) :=
  if recs.length < apu then some (0, 0, 0)
  else
    let pat := (recs.take apu).map stripName
    (scanUnits fuel pat apu recs).map fun p =>
      let q := ionScan p.2
      let w := waterScan q.2
      (p.1, q.1, w.1)

/-- Embedding of auto_detect_counts, run with fuel sufficient whenever
atoms_per_olig is at least 1. -/
def auto_detect_counts (recs : List AtomRecord) (apu : Nat) : Option (Nat × Nat × Nat) :=
  auto_detect_counts_fuel (recs.length + 1) recs apu

/-- Caller logic of process_pdb around detection: an all-zero detection
result is replaced by the manual fallback counts. -/
def effectiveCounts (recs : List AtomRecord) (apu : Nat) (manual : Nat × Nat × Nat) :
    Option (Nat × Nat × Nat) :=
  (auto_detect_counts recs apu).map fun d => if d = (0, 0, 0) then manual else d

/-- Data carried by one formatted output atom line: serial, atom name,
residue name, residue number, coordinates.  The fixed-column rendering,
occupancy and temperature-factor literals are injective in these fields
and are not re-modelled. -/
structure FmtRec where
  serial : Nat
  name : String
  resName : String
  resNum : Nat
  coords : Coord
deriving DecidableEq, Repr

/-- One line of the main output file. -/
inductive OutLine where
  | header (s : String)
  | atom (r : FmtRec)
  | ter
  | endMark
deriving DecidableEq, Repr

/-- Fatal conditions of process_pdb: coordinate parse failure, the three
per-phase element mismatches (each reporting the 1-based atom-line number
together with the expected and found data printed by the program), and an
out-of-range list access (an uncaught IndexError in the source). -/
inductive PErr where
  | coordErr (lineNum : Nat)
  | oligMismatch (lineNum : Nat) (expName expElem found : String)
  | ionMismatch (lineNum : Nat) (expected found : String)
  | waterMismatch (lineNum : Nat) (expected found : String)
  | indexErr (lineNum : Nat)
deriving DecidableEq, Repr

/-- Value of current_mol_type. -/
inductive MolType where
  | oligomer
  | ion
  | water
  | done
deriving DecidableEq, Repr

/-- Mutable state of the main processing loop of process_pdb. -/
structure RState where
  atomCounter : Nat
  residueCounter : Nat
  molType : MolType
  molIdx : Nat
  atomInMolIdx : Nat
  buffer : List FmtRec
  out : List OutLine
  extract : List FmtRec
  extracting : Bool
deriving DecidableEq, Repr

/-- State at entry of the main processing loop. -/
def initState : RState :=
  { atomCounter := 0
    residueCounter := 0
    molType := .oligomer
    molIdx := 0
    atomInMolIdx := 0
    buffer := []
    out := []
    extract := []
    extracting := true }

/-- Water-phase table: fixed atom names O, H1, H2 paired with the expected
elements O, H, H; both lists in the source are indexed by the same
in-group position. -/
def waterTable : List (String × String) := [("O", "O"), ("H1", "H"), ("H2", "H")]

/-- One iteration of the main processing loop on one atom record.  The done
check precedes coordinate parsing; coordinate parsing precedes the phase
logic; extraction of a first-oligomer line happens after the element check
and before the buffering logic, exactly as in the source.  An error leaves
the state unchanged, matching sys.exit before any mutation in that
iteration. -/
def step (tmpl : List (String × String)) (nOlig nIon nWat : Nat)
    (lineNum : Nat) (rec : AtomRecord) (s : RState) : Except PErr RState :=
  if s.molType = .done then .ok s else
  match rec.coords with
  | none => .error (.coordErr lineNum)
  | some xyz =>
    let pe := get_pdb_element rec
    match s.molType with
    | .done => .ok s
    | .oligomer =>
      match tmpl[s.atomInMolIdx]? with
      | none => .error (.indexErr lineNum)
      | some tgt =>
        if pe ≠ tgt.2 then .error (.oligMismatch lineNum tgt.1 tgt.2 pe)
        else
          let extract1 := if s.extracting then
            s.extract ++ [⟨s.atomInMolIdx + 1, pe, "MOL", 1, xyz⟩] else s.extract
          let ai := s.atomInMolIdx + 1
          let ac := s.atomCounter + 1
          if ai = tmpl.length then
            let rc := s.residueCounter + 1
            let blk := s.buffer ++ [⟨ac, tgt.1, "MOL", rc, xyz⟩]
            let mi := s.molIdx + 1
            if mi = nOlig then
              .ok
                { atomCounter := ac
                  residueCounter := rc
                  molType := if nIon > 0 then .ion else if nWat > 0 then .water else .done
                  molIdx := 0
                  atomInMolIdx := 0
                  buffer := []
                  out := s.out ++ blk.map OutLine.atom ++ [.ter]
                  extract := extract1
                  extracting := false }
            else
              .ok
                { atomCounter := ac
                  residueCounter := rc
                  molType := .oligomer
                  molIdx := mi
                  atomInMolIdx := 0
                  buffer := []
                  out := s.out ++ blk.map OutLine.atom ++ [.ter]
                  extract := extract1
                  extracting := false }
          else
            .ok
              { s with
                atomCounter := ac
                atomInMolIdx := ai
                buffer := s.buffer ++ [⟨ac, tgt.1, "MOL", s.residueCounter + 1, xyz⟩]
                extract := extract1 }
    | .ion =>
      if pe ≠ "Cl" then .error (.ionMismatch lineNum "Cl" pe)
      else
        let ac := s.atomCounter + 1
        let rc := s.residueCounter + 1
        let out1 := s.out ++ [.atom ⟨ac, "Cl-", "Cl-", rc, xyz⟩, .ter]
        let mi := s.molIdx + 1
        if mi = nIon then
          .ok
            { s with
              atomCounter := ac
              residueCounter := rc
              out := out1
              molType := if nWat > 0 then .water else .done
              molIdx := 0
              atomInMolIdx := 0 }
        else
          .ok { s with atomCounter := ac, residueCounter := rc, out := out1, molIdx := mi }
    | .water =>
      match waterTable[s.atomInMolIdx]? with
      | none => .error (.indexErr lineNum)
      | some wt =>
        if pe ≠ wt.2 then .error (.waterMismatch lineNum wt.2 pe)
        else
          let ai := s.atomInMolIdx + 1
          let ac := s.atomCounter + 1
          if ai = 3 then
            let rc := s.residueCounter + 1
            let blk := s.buffer ++ [⟨ac, wt.1, "WAT", rc, xyz⟩]
            let mi := s.molIdx + 1
            .ok
              { s with
                atomCounter := ac
                residueCounter := rc
                molType := if mi = nWat then .done else .water
                molIdx := mi
                atomInMolIdx := 0
                buffer := []
                out := s.out ++ blk.map OutLine.atom ++ [.ter] }
          else
            .ok
              { s with
                atomCounter := ac
                atomInMolIdx := ai
                buffer := s.buffer ++ [⟨ac, wt.1, "WAT", s.residueCounter + 1, xyz⟩] }

/-- Main processing loop: run step over the atom records with 1-based line
numbering; on a fatal condition return the state reached so far (the bytes
already flushed) together with the error. -/
def runLoop (tmpl : List (String × String)) (nOlig nIon nWat : Nat) :
    List AtomRecord → Nat → RState → RState × Option PErr
  | [], _, s => (s, none)
  | r :: rs, ln, s =>
    match step tmpl nOlig nIon nWat ln r s with
    | .ok s1 => runLoop tmpl nOlig nIon nWat rs (ln + 1) s1
    | .error e => (s, some e)

/-- Input lines as classified by the startswith tests of process_pdb:
ATOM/HETATM lines carry an AtomRecord, lines starting with one of the six
header keywords carry their verbatim text, all other lines are ignored. -/
inductive RawLine where
  | atomLine (r : AtomRecord)
  | headerLine (s : String)
  | otherLine (s : String)
deriving DecidableEq, Repr

/-- Order-preserving separation of header lines and atom lines. -/
def splitLines : List RawLine → List String × List AtomRecord
  | [] => ([], [])
  | l :: ls =>
    let p := splitLines ls
    match l with
    | .headerLine s => (s :: p.1, p.2)
    | .atomLine r => (p.1, r :: p.2)
    | .otherLine _ => p

/-- Observable result of one run of process_pdb: the main output file, the
extraction artifact, whether the artifact was closed (first oligomer
completed), the discarded incomplete buffered residue reported by the
end-of-loop warning, the final residue count, and the fatal error if the
run aborted (in which case no END line is written). -/
structure POut where
  main : List OutLine
  extract : List FmtRec
  extractClosed : Bool
  discarded : List FmtRec
  residues : Nat
  err : Option PErr
deriving DecidableEq, Repr

/-- Writing phase of process_pdb for given counts: headers first, then the
loop output, then the END marker when no fatal error occurred. -/
def processAtoms (tmpl : List (String × String)) (nOlig nIon nWat : Nat)
    (headers : List String) (recs : List AtomRecord) : POut :=
  let p := runLoop tmpl nOlig nIon nWat recs 1 initState
  match p.2 with
  | none =>
    { main := headers.map OutLine.header ++ p.1.out ++ [.endMark]
      extract := p.1.extract
      extractClosed := !p.1.extracting
      discarded := p.1.buffer
      residues := p.1.residueCounter
      err := none }
  | some e =>
    { main := headers.map OutLine.header ++ p.1.out
      extract := p.1.extract
      extractClosed := !p.1.extracting
      discarded := p.1.buffer
      residues := p.1.residueCounter
      err := some e }

/-- Embedding of process_pdb: split the input lines, detect counts (falling
back to the manual configuration when detection yields all zeros), then run
the writing phase.  none models divergence of the detection scan. -/
def process_pdb (tmpl : List (String × String)) (manual : Nat × Nat × Nat)
    (lines : List RawLine) : Option POut :=
  let hs := (splitLines lines).1
  let recs := (splitLines lines).2
  (effectiveCounts recs tmpl.length manual).map fun c =>
    processAtoms tmpl c.1 c.2.1 c.2.2 hs recs

/-- Atom lines of an output-line list. -/
def atomsOf (l : List OutLine) : List FmtRec :=
  l.filterMap fun x =>
    match x with
    | .atom r => some r
    | _ => none

/-- Rendering of a list of closed residues: the atom lines of each residue
followed by one terminator line. -/
def flatResidues (L : List (List FmtRec)) : List OutLine :=
  (L.map fun b => b.map OutLine.atom ++ [OutLine.ter]).flatten

/-- Auxiliary for blocksOf: gather atom lines, close a block at each
terminator, skip header and end lines; a trailing run with no terminator
is dropped. -/
def blocksAux : List OutLine → List FmtRec → List (List FmtRec)
  | [], _ => []
  | .atom r :: rest, acc => blocksAux rest (acc ++ [r])
  | .ter :: rest, acc => acc :: blocksAux rest []
  | .header _ :: rest, acc => blocksAux rest acc
  | .endMark :: rest, acc => blocksAux rest acc

/-- Terminator-closed residue blocks of an output-line list. -/
def blocksOf (l : List OutLine) : List (List FmtRec) := blocksAux l []

/-- Structural invariant of the writing loop: the flushed output is a list
of terminator-closed residues numbered 1, 2, ... in order; the serials of
the flushed atom lines followed by the buffered ones are 1..atomCounter
with no gap; buffered lines carry the next residue number; the buffer is
empty in the ion phase (ion records are written unbuffered). -/
def Inv (s : RState) : Prop :=
  ∃ L : List (List FmtRec),
    s.out = flatResidues L ∧
    L.length = s.residueCounter ∧
    (∀ i b, L[i]? = some b → ∀ r ∈ b, r.resNum = i + 1) ∧
    (L.flatten ++ s.buffer).map FmtRec.serial = List.range' 1 s.atomCounter ∧
    (∀ r ∈ s.buffer, r.resNum = s.residueCounter + 1) ∧
    (s.molType = .ion → s.buffer = [])

/-- Extraction-artifact invariant: while the artifact is open the machine
is still inside the first oligomer and the artifact holds its lines so
far; once closed it holds exactly atoms_per_oligomer lines; lines are
serialled 1.. with residue number 1 and carry the classified element,
which the passed mismatch check makes equal to the template element at
that position. -/
def ExInv (tmpl : List (String × String)) (s : RState) : Prop :=
  (s.extracting = true →
    s.molType = .oligomer ∧ s.molIdx = 0 ∧ s.extract.length = s.atomInMolIdx) ∧
  (s.extracting = false → s.extract.length = tmpl.length) ∧
  s.extract.map FmtRec.serial = List.range' 1 s.extract.length ∧
  (∀ r ∈ s.extract, r.resNum = 1) ∧
  s.extract.map FmtRec.name = (tmpl.take s.extract.length).map Prod.snd

/-- Consumption invariant relating the atom counter to the phase cursor:
atomCounter equals the number of records consumed so far, and reaching the
done phase pins it to the total detected count. -/
def PhaseInv (apu nOlig nIon nWat : Nat) (s : RState) : Prop :=
  match s.molType with
  | .oligomer => s.atomCounter = s.molIdx * apu + s.atomInMolIdx
  | .ion => s.atomCounter = nOlig * apu + s.molIdx
  | .water => s.atomCounter = nOlig * apu + nIon + 3 * s.molIdx + s.atomInMolIdx
  | .done => s.atomCounter = nOlig * apu + nIon + 3 * nWat

/-- Decidable statement that record j of the stream parses and classifies
to the template element expected at its position within its oligomer. -/
def matchOkB (tmpl : List (String × String)) (recs : List AtomRecord) (j : Nat) : Bool :=
  match recs[j]?, tmpl[j % tmpl.length]? with
  | some r, some p => r.coords.isSome && (get_pdb_element r == p.2)
  | _, _ => false

/-- Concrete one-atom template whose canonical atom name differs from its
element symbol, as any named template atom does. -/
def tmplC : List (String × String) := [("C1", "C")]

/-- Concrete record matching tmplC: atom-name column C1, element column C. -/
def recC1 : AtomRecord := ⟨" C1 ", "MOL", " C", some (0, 0, 0)⟩

/-- Concrete chloride record: classified element Cl. -/
def recCl : AtomRecord := ⟨" Cl ", "Cl ", "Cl", some (0, 0, 0)⟩

/-- Concrete record whose classified element is O. -/
def recO : AtomRecord := ⟨" O  ", "WAT", " O", some (0, 0, 0)⟩

/-- Result of the reference run of process_pdb on tmplC and the single
record recC1, used to instantiate run-level theorems concretely. -/
def outC1 : POut :=
  { main := [OutLine.atom ⟨1, "C1", "MOL", 1, (0, 0, 0)⟩, OutLine.ter, OutLine.endMark]
    extract := [⟨1, "C", "MOL", 1, (0, 0, 0)⟩]
    extractClosed := true
    discarded := []
    residues := 1
    err := none }

/-! Detection lemmas -/

theorem scanUnits_none_of_apu_zero :
    ∀ (fuel : Nat) (rest : List AtomRecord), scanUnits fuel [] 0 rest = none := by
  intro fuel
  induction fuel with
  | zero => intro rest; rfl
  | succ n ih => intro rest; simp [scanUnits, ih]

theorem scanUnits_isSome (pat : List String) (apu : Nat) :
    ∀ (fuel : Nat) (rest : List AtomRecord), rest.length < fuel * apu →
      (scanUnits fuel pat apu rest).isSome = true := by
  intro fuel
  induction fuel with
  | zero => intro rest hlen; omega
  | succ n ih =>
    intro rest hlen
    rw [scanUnits]
    by_cases h1 : apu ≤ rest.length
    · rw [if_pos h1]
      by_cases h2 : (rest.take apu).map stripName = pat
      · rw [if_pos h2]
        have hd : (rest.drop apu).length < n * apu := by
          rw [List.length_drop]
          have hs : (n + 1) * apu = n * apu + apu := Nat.succ_mul n apu
          omega
        rcases Option.isSome_iff_exists.mp (ih (rest.drop apu) hd) with ⟨p, hp⟩
        rw [hp]; rfl
      · rw [if_neg h2]; rfl
    · rw [if_neg h1]; rfl

theorem scanUnits_len (pat : List String) (apu : Nat) :
    ∀ (fuel : Nat) (rest : List AtomRecord) (n : Nat) (r : List AtomRecord),
      scanUnits fuel pat apu rest = some (n, r) → n * apu + r.length = rest.length := by
  intro fuel
  induction fuel with
  | zero => intro rest n r h; simp [scanUnits] at h
  | succ f ih =>
    intro rest n r h
    rw [scanUnits] at h
    by_cases h1 : apu ≤ rest.length
    · rw [if_pos h1] at h
      by_cases h2 : (rest.take apu).map stripName = pat
      · rw [if_pos h2] at h
        rcases Option.map_eq_some'.mp h with ⟨⟨m, r2⟩, hm, heq⟩
        have hlen := ih (rest.drop apu) m r2 hm
        rw [List.length_drop] at hlen
        have hn : m + 1 = n := congrArg Prod.fst heq
        have hr : r2 = r := congrArg Prod.snd heq
        subst hn; subst hr
        have hs : (m + 1) * apu = m * apu + apu := Nat.succ_mul m apu
        omega
      · rw [if_neg h2] at h
        have hn : (0 : Nat) = n := congrArg (fun p => p.1) (Option.some.inj h)
        have hr : rest = r := congrArg (fun p => p.2) (Option.some.inj h)
        subst hn; subst hr
        simp
    · rw [if_neg h1] at h
      have hn : (0 : Nat) = n := congrArg (fun p => p.1) (Option.some.inj h)
      have hr : rest = r := congrArg (fun p => p.2) (Option.some.inj h)
      subst hn; subst hr
      simp

theorem scanUnits_first_window (pat : List String) (apu : Nat)
    (fuel : Nat) (rest : List AtomRecord) (n : Nat) (r : List AtomRecord)
    (hpat : (rest.take apu).map stripName = pat) (hlen : apu ≤ rest.length)
    (h : scanUnits fuel pat apu rest = some (n, r)) : 1 ≤ n := by
  cases fuel with
  | zero => simp [scanUnits] at h
  | succ f =>
    rw [scanUnits, if_pos hlen, if_pos hpat] at h
    rcases Option.map_eq_some'.mp h with ⟨⟨m, r2⟩, _, heq⟩
    have hn : m + 1 = n := congrArg Prod.fst heq
    omega

theorem auto_detect_isSome (recs : List AtomRecord) (apu : Nat) (h : 1 ≤ apu) :
    (auto_detect_counts recs apu).isSome = true := by
  unfold auto_detect_counts auto_detect_counts_fuel
  by_cases h1 : recs.length < apu
  · rw [if_pos h1]; rfl
  · rw [if_neg h1]
    have hlt : recs.length < (recs.length + 1) * apu := by
      have h2 : recs.length * 1 ≤ recs.length * apu := Nat.mul_le_mul_left _ h
      have h3 : (recs.length + 1) * apu = recs.length * apu + apu := Nat.succ_mul _ _
      omega
    simp only [Option.isSome_map']
    exact scanUnits_isSome _ apu _ recs hlt

theorem ionScan_len : ∀ (l : List AtomRecord), (ionScan l).1 + (ionScan l).2.length = l.length := by
  intro l
  induction l with
  | nil => simp [ionScan]
  | cons r rs ih =>
    by_cases h : isIonRec r = true
    · simp [ionScan, h]; omega
    · simp [ionScan, h]

theorem waterScan_len : ∀ (l : List AtomRecord), 3 * (waterScan l).1 + (waterScan l).2.length = l.length := by
  intro l
  induction l using waterScan.induct with
  | case1 r1 r2 r3 rs hm ih => simp [waterScan, hm]; omega
  | case2 r1 r2 r3 rs hm => simp [waterScan, hm]
  | case3 l hl => rw [waterScan.eq_def]; cases l with
    | nil => simp
    | cons a as => cases as with
      | nil => simp
      | cons b bs => cases bs with
        | nil => simp
        | cons c cs => exact absurd rfl (hl a b c cs)

/-! Claim theorems: detection -/

/-- C2: a record stream that is empty or shorter than one oligomer (by C9
the only streams on which the scans find nothing) makes detection return
(0,0,0), and an all-zero detection result makes the caller substitute the
manual fallback counts. -/
theorem claimC2_detection_fallback (recs : List AtomRecord) (apu : Nat)
    (manual : Nat × Nat × Nat) :
    (recs.length < apu → auto_detect_counts recs apu = some (0, 0, 0)) ∧
    (auto_detect_counts recs apu = some (0, 0, 0) →
      effectiveCounts recs apu manual = some manual) := by
  constructor
  · intro h
    unfold auto_detect_counts auto_detect_counts_fuel
    rw [if_pos h]
  · intro h
    unfold effectiveCounts
    rw [h]
    rfl

theorem claimC2_witness :
    auto_detect_counts [] 5 = some (0, 0, 0) ∧
    effectiveCounts [] 5 (64, 48, 1624) = some (64, 48, 1624) := by
  refine ⟨(claimC2_detection_fallback [] 5 (64, 48, 1624)).1 (by decide), ?_⟩
  exact (claimC2_detection_fallback [] 5 (64, 48, 1624)).2
    ((claimC2_detection_fallback [] 5 (64, 48, 1624)).1 (by decide))

/-- C9: with a positive template size, any stream of at least
atoms_per_unit records makes the oligomer scan count at least one unit,
because the reference pattern is the name sequence of the first window and
that window matches itself; hence an all-zero detection result only arises
on streams shorter than atoms_per_unit. -/
theorem claimC9_first_window_self_match (recs : List AtomRecord) (apu : Nat)
    (h1 : 1 ≤ apu) :
    (apu ≤ recs.length → 1 ≤ ((auto_detect_counts recs apu).getD (0, 0, 0)).1) ∧
    (auto_detect_counts recs apu = some (0, 0, 0) → recs.length < apu) := by
  have hnotlt : ∀ h2 : apu ≤ recs.length,
      1 ≤ ((auto_detect_counts recs apu).getD (0, 0, 0)).1 := by
    intro h2
    have hns : ¬ recs.length < apu := by omega
    rcases Option.isSome_iff_exists.mp (auto_detect_isSome recs apu h1) with ⟨d, hd⟩
    have hd2 := hd
    unfold auto_detect_counts auto_detect_counts_fuel at hd2
    rw [if_neg hns] at hd2
    rcases Option.map_eq_some'.mp hd2 with ⟨⟨n, rest⟩, hscan, heq⟩
    have hpos : 1 ≤ n :=
      scanUnits_first_window _ apu _ recs n rest rfl h2 hscan
    rw [hd]
    have : d.1 = n := by rw [← heq]
    simp [Option.getD, this]
    omega
  refine ⟨hnotlt, ?_⟩
  intro hzero
  by_contra hge
  have h2 : apu ≤ recs.length := by omega
  have := hnotlt h2
  rw [hzero] at this
  simp [Option.getD] at this

theorem claimC9_witness :
    1 ≤ ((auto_detect_counts [recC1] 1).getD (0, 0, 0)).1 :=
  (claimC9_first_window_self_match [recC1] 1 (by decide)).1 (by decide)

/-- C10: with a positive template size the oligomer scan (and hence
detection) terminates, witnessed by the fuel bound records.length + 1
sufficing; with template size zero the scan diverges on every record list,
the empty one included, since every iteration matches the empty window and
advances the cursor by zero: no amount of fuel produces a result. -/
theorem claimC10_termination (recs : List AtomRecord) (apu fuel : Nat) :
    (1 ≤ apu → (auto_detect_counts recs apu).isSome = true) ∧
    auto_detect_counts_fuel fuel recs 0 = none := by
  constructor
  · intro h
    exact auto_detect_isSome recs apu h
  · unfold auto_detect_counts_fuel
    have hns : ¬ recs.length < 0 := by omega
    rw [if_neg hns]
    simp [scanUnits_none_of_apu_zero]

theorem claimC10_witness :
    (auto_detect_counts [recC1] 1).isSome = true ∧
    auto_detect_counts_fuel 7 [recC1] 0 = none :=
  ⟨(claimC10_termination [recC1] 1 7).1 (by decide),
   (claimC10_termination [recC1] 1 7).2⟩

/-! Claim theorems: single-step behaviour -/

/-- C7: in the ion phase a record classifying to any element other than Cl
aborts fatally with an error reporting the expected element Cl and the
found element; a record classifying to Cl is emitted with the fixed atom
and residue name Cl-, as its own residue (counter incremented by one),
closed immediately by a terminator line, whatever the record's own name
and residue-name fields contain. -/
theorem claimC7_ion_phase (tmpl : List (String × String)) (nO nI nW ln : Nat)
    (rec : AtomRecord) (s : RState) (c : Coord)
    (hion : s.molType = .ion) (hc : rec.coords = some c) :
    (get_pdb_element rec ≠ "Cl" →
      step tmpl nO nI nW ln rec s =
        .error (.ionMismatch ln "Cl" (get_pdb_element rec))) ∧
    (get_pdb_element rec = "Cl" →
      step tmpl nO nI nW ln rec s = .ok
        { s with
          atomCounter := s.atomCounter + 1
          residueCounter := s.residueCounter + 1
          out := s.out ++
            [.atom ⟨s.atomCounter + 1, "Cl-", "Cl-", s.residueCounter + 1, c⟩, .ter]
          molType := if s.molIdx + 1 = nI then (if nW > 0 then .water else .done) else s.molType
          molIdx := if s.molIdx + 1 = nI then 0 else s.molIdx + 1
          atomInMolIdx := if s.molIdx + 1 = nI then 0 else s.atomInMolIdx }) := by
  have hnd : ¬ s.molType = MolType.done := by rw [hion]; simp
  constructor
  · intro hne
    unfold step
    rw [if_neg hnd, hc, hion]
    simp [hne]
  · intro heq
    unfold step
    rw [if_neg hnd, hc, hion]
    by_cases hmi : s.molIdx + 1 = nI
    · simp [heq, hmi]
    · simp [heq, hmi, hion]

theorem claimC7_witness :
    step tmplC 1 1 0 3 recO { initState with molType := .ion } =
      .error (.ionMismatch 3 "Cl" "O") ∧
    step tmplC 1 1 0 3 recCl { initState with molType := .ion } = .ok
      { atomCounter := 1
        residueCounter := 1
        molType := .done
        molIdx := 0
        atomInMolIdx := 0
        buffer := []
        out := [.atom ⟨1, "Cl-", "Cl-", 1, (0, 0, 0)⟩, .ter]
        extract := []
        extracting := true } := by
  constructor
  · have h := (claimC7_ion_phase tmplC 1 1 0 3 recO
      { initState with molType := .ion } (0, 0, 0) rfl rfl).1 (by decide)
    rw [h]
    rfl
  · have h := (claimC7_ion_phase tmplC 1 1 0 3 recCl
      { initState with molType := .ion } (0, 0, 0) rfl rfl).2 (by decide)
    rw [h]
    rfl

/-- C6 counterexample: with counts (0, 1, 0) the first record, a chloride
the claim says the Ion phase should accept, is instead validated against
the unit template and the run aborts with an oligomer mismatch. -/
theorem claimC6_counterexample :
    runLoop tmplC 0 1 0 [recCl] 1 initState =
      (initState, some (.oligMismatch 1 "C1" "C" "Cl")) := by
  decide

/-- C6 as amended: the machine starts in the Unit phase regardless of the
counts; with unit_count = 0 the phase is not skipped, and the first record
is looked up against the unit template, aborting with a unit-phase
mismatch when its element differs from the template's first element,
rather than being handed to the Ion or Solvent phase. -/
theorem claimC6_unit_phase_not_skipped (tmpl : List (String × String))
    (nI nW ln : Nat) (rec : AtomRecord) (recs : List AtomRecord)
    (tn te : String) (c : Coord)
    (ht : tmpl[0]? = some (tn, te))
    (hc : rec.coords = some c)
    (hne : get_pdb_element rec ≠ te) :
    initState.molType = .oligomer ∧
    runLoop tmpl 0 nI nW (rec :: recs) ln initState =
      (initState, some (.oligMismatch ln tn te (get_pdb_element rec))) := by
  refine ⟨rfl, ?_⟩
  rw [runLoop]
  have hstep : step tmpl 0 nI nW ln rec initState =
      .error (.oligMismatch ln tn te (get_pdb_element rec)) := by
    unfold step
    rw [hc]
    have h0 : initState.molType = MolType.oligomer := rfl
    rw [h0]
    have hai : initState.atomInMolIdx = 0 := rfl
    rw [if_neg (by simp), hai, ht]
    simp [hne]
  rw [hstep]

theorem claimC6_witness :
    initState.molType = .oligomer ∧
    runLoop tmplC 0 1 0 [recCl] 2 initState =
      (initState, some (.oligMismatch 2 "C1" "C" "Cl")) :=
  claimC6_unit_phase_not_skipped tmplC 1 0 2 recCl [] "C1" "C" (0, 0, 0)
    rfl rfl (by decide)

/-! Generic run lemmas -/

theorem runLoop_pres (P : RState → Prop) (tmpl : List (String × String))
    (nO nI nW : Nat)
    (hstep : ∀ ln rec s s1, P s → step tmpl nO nI nW ln rec s = .ok s1 → P s1) :
    ∀ (recs : List AtomRecord) (ln : Nat) (s : RState), P s →
      P (runLoop tmpl nO nI nW recs ln s).1 := by
  intro recs
  induction recs with
  | nil => intro ln s hp; exact hp
  | cons r rs ih =>
    intro ln s hp
    cases hs : step tmpl nO nI nW ln r s with
    | ok s1 =>
      simp only [runLoop, hs]
      exact ih (ln + 1) s1 (hstep ln r s s1 hp hs)
    | error e =>
      simp only [runLoop, hs]
      exact hp

theorem runLoop_append (tmpl : List (String × String)) (nO nI nW : Nat)
    (l1 l2 : List AtomRecord) :
    ∀ (ln : Nat) (s : RState),
      runLoop tmpl nO nI nW (l1 ++ l2) ln s =
        match runLoop tmpl nO nI nW l1 ln s with
        | (s1, none) => runLoop tmpl nO nI nW l2 (ln + l1.length) s1
        | (s1, some e) => (s1, some e) := by
  induction l1 with
  | nil => intro ln s; simp [runLoop]
  | cons r rs ih =>
    intro ln s
    cases hs : step tmpl nO nI nW ln r s with
    | ok s1 =>
      simp only [List.cons_append, runLoop, hs, List.append_eq]
      rw [ih (ln + 1) s1]
      have hlen : ln + 1 + rs.length = ln + (r :: rs).length := by
        simp only [List.length_cons]
        omega
      rw [hlen]
    | error e =>
      simp only [List.cons_append, runLoop, hs]

/-! PhaseInv preservation and C4 -/

theorem step_phaseInv (tmpl : List (String × String)) (nO nI nW ln : Nat)
    (rec : AtomRecord) (s s1 : RState)
    (hp : PhaseInv tmpl.length nO nI nW s)
    (h : step tmpl nO nI nW ln rec s = .ok s1) :
    PhaseInv tmpl.length nO nI nW s1 := by
  unfold step at h
  by_cases hd : s.molType = MolType.done
  · rw [if_pos hd] at h
    injection h with h1
    subst h1
    exact hp
  · rw [if_neg hd] at h
    cases hc : rec.coords with
    | none => rw [hc] at h; simp at h
    | some xyz =>
      rw [hc] at h
      cases hmt : s.molType with
      | done => exact absurd hmt hd
      | oligomer =>
        simp only [hmt] at h
        unfold PhaseInv at hp
        rw [hmt] at hp
        cases hg : tmpl[s.atomInMolIdx]? with
        | none => simp only [hg] at h; simp at h
        | some tgt =>
          simp only [hg] at h
          by_cases hne : get_pdb_element rec ≠ tgt.2
          · rw [if_pos hne] at h; simp at h
          · rw [if_neg hne] at h
            have hai : s.atomInMolIdx < tmpl.length := by
              have := List.getElem?_eq_some_iff.mp hg
              exact this.1
            by_cases hclose : s.atomInMolIdx + 1 = tmpl.length
            · rw [if_pos hclose] at h
              by_cases htr : s.molIdx + 1 = nO
              · rw [if_pos htr] at h
                injection h with h1
                subst h1
                unfold PhaseInv
                by_cases hni : nI > 0
                · simp only [if_pos hni]
                  rw [← htr, Nat.succ_mul]
                  omega
                · by_cases hnw : nW > 0
                  · simp only [if_neg hni, if_pos hnw]
                    rw [← htr, Nat.succ_mul]
                    omega
                  · simp only [if_neg hni, if_neg hnw]
                    rw [← htr, Nat.succ_mul]
                    omega
              · rw [if_neg htr] at h
                injection h with h1
                subst h1
                unfold PhaseInv
                simp only []
                rw [Nat.succ_mul]
                omega
            · rw [if_neg hclose] at h
              injection h with h1
              subst h1
              unfold PhaseInv
              simp only [hmt]
              omega
      | ion =>
        simp only [hmt] at h
        unfold PhaseInv at hp
        rw [hmt] at hp
        by_cases hne : get_pdb_element rec ≠ "Cl"
        · rw [if_pos hne] at h; simp at h
        · rw [if_neg hne] at h
          by_cases htr : s.molIdx + 1 = nI
          · rw [if_pos htr] at h
            injection h with h1
            subst h1
            unfold PhaseInv
            by_cases hnw : nW > 0
            · simp only [if_pos hnw]
              omega
            · simp only [if_neg hnw]
              omega
          · rw [if_neg htr] at h
            injection h with h1
            subst h1
            unfold PhaseInv
            simp only [hmt]
            omega
      | water =>
        simp only [hmt] at h
        unfold PhaseInv at hp
        rw [hmt] at hp
        cases hg : waterTable[s.atomInMolIdx]? with
        | none => simp only [hg] at h; simp at h
        | some wt =>
          simp only [hg] at h
          by_cases hne : get_pdb_element rec ≠ wt.2
          · rw [if_pos hne] at h; simp at h
          · rw [if_neg hne] at h
            by_cases hclose : s.atomInMolIdx + 1 = 3
            · rw [if_pos hclose] at h
              injection h with h1
              subst h1
              unfold PhaseInv
              by_cases htr : s.molIdx + 1 = nW
              · simp only [if_pos htr]
                omega
              · simp only [if_neg htr]
                omega
            · rw [if_neg hclose] at h
              injection h with h1
              subst h1
              unfold PhaseInv
              simp only [hmt]
              omega

/-- C4: a successful detection result satisfies
unit_count * atoms_per_unit + ion_count + 3 * solvent_count ≤ total records
(each scan advances a cursor that never passes the end), and a
reconstruction run over the records that ends without error in the done
phase has consumed (counted in atom_counter, incremented exactly once per
processed record) exactly that total, the remaining records being skipped
unprocessed by the done guard. -/
theorem claimC4_count_invariant (tmpl : List (String × String))
    (recs : List AtomRecord) (nO nI nW : Nat)
    (hdet : auto_detect_counts recs tmpl.length = some (nO, nI, nW)) :
    nO * tmpl.length + nI + 3 * nW ≤ recs.length ∧
    ((runLoop tmpl nO nI nW recs 1 initState).2 = none →
      (runLoop tmpl nO nI nW recs 1 initState).1.molType = .done →
      (runLoop tmpl nO nI nW recs 1 initState).1.atomCounter =
        nO * tmpl.length + nI + 3 * nW) := by
  constructor
  · unfold auto_detect_counts auto_detect_counts_fuel at hdet
    by_cases hlt : recs.length < tmpl.length
    · rw [if_pos hlt] at hdet
      have h1 : ((0, 0, 0) : Nat × Nat × Nat) = (nO, nI, nW) := Option.some.inj hdet
      injection h1 with ha hb
      injection hb with hb hc
      subst ha; subst hb; subst hc
      omega
    · rw [if_neg hlt] at hdet
      rcases Option.map_eq_some'.mp hdet with ⟨⟨n, rest1⟩, hscan, heq⟩
      dsimp only at heq
      injection heq with ha hb
      injection hb with hb hc
      subst ha; subst hb; subst hc
      have h1 := scanUnits_len _ tmpl.length _ recs _ _ hscan
      have h2 := ionScan_len rest1
      have h3 := waterScan_len (ionScan rest1).2
      omega
  · intro hnone hdone
    have hinv := runLoop_pres (PhaseInv tmpl.length nO nI nW) tmpl nO nI nW
      (fun ln rec s s1 hp hs => step_phaseInv tmpl nO nI nW ln rec s s1 hp hs)
      recs 1 initState (by unfold PhaseInv; simp [initState])
    unfold PhaseInv at hinv
    simp only [hdone] at hinv
    exact hinv

/-! Output-structure invariant -/

theorem serial_push (X : List FmtRec) (new : FmtRec) (ac : Nat)
    (h : X.map FmtRec.serial = List.range' 1 ac) (hn : new.serial = ac + 1) :
    (X ++ [new]).map FmtRec.serial = List.range' 1 (ac + 1) := by
  rw [List.map_append, h, List.range'_1_concat]
  simp [hn, Nat.add_comm]

theorem flatResidues_concat (L : List (List FmtRec)) (b : List FmtRec) :
    flatResidues (L ++ [b]) = flatResidues L ++ (b.map OutLine.atom ++ [OutLine.ter]) := by
  simp [flatResidues]

theorem blocks_resnum_concat (L : List (List FmtRec)) (b : List FmtRec)
    (hL : ∀ i bb, L[i]? = some bb → ∀ r ∈ bb, r.resNum = i + 1)
    (hb : ∀ r ∈ b, r.resNum = L.length + 1) :
    ∀ i bb, (L ++ [b])[i]? = some bb → ∀ r ∈ bb, r.resNum = i + 1 := by
  intro i bb hi r hr
  by_cases hlt : i < L.length
  · rw [List.getElem?_append_left hlt] at hi
    exact hL i bb hi r hr
  · by_cases heq : i = L.length
    · subst heq
      rw [List.getElem?_concat_length] at hi
      have hbb : b = bb := Option.some.inj hi
      subst hbb
      exact hb r hr
    · have hge : (L ++ [b]).length ≤ i := by
        simp only [List.length_append, List.length_cons, List.length_nil]
        omega
      rw [List.getElem?_len_le hge] at hi
      exact absurd hi (by simp)

theorem inv_close_block (L : List (List FmtRec)) (buf : List FmtRec)
    (new : FmtRec) (out : List OutLine) (ac rc : Nat)
    (hout : out = flatResidues L)
    (hlen : L.length = rc)
    (hres : ∀ i b, L[i]? = some b → ∀ r ∈ b, r.resNum = i + 1)
    (hser : (L.flatten ++ buf).map FmtRec.serial = List.range' 1 ac)
    (hbuf : ∀ r ∈ buf, r.resNum = rc + 1)
    (hns : new.serial = ac + 1) (hnr : new.resNum = rc + 1) :
    out ++ (buf ++ [new]).map OutLine.atom ++ [OutLine.ter] =
        flatResidues (L ++ [buf ++ [new]]) ∧
    (L ++ [buf ++ [new]]).length = rc + 1 ∧
    (∀ i b, (L ++ [buf ++ [new]])[i]? = some b → ∀ r ∈ b, r.resNum = i + 1) ∧
    ((L ++ [buf ++ [new]]).flatten ++ ([] : List FmtRec)).map FmtRec.serial =
      List.range' 1 (ac + 1) := by
  refine ⟨?_, ?_, ?_, ?_⟩
  · rw [flatResidues_concat, hout, List.append_assoc]
  · simp [hlen]
  · refine blocks_resnum_concat L (buf ++ [new]) hres ?_
    intro r hr
    rcases List.mem_append.mp hr with h1 | h1
    · rw [hlen]; exact hbuf r h1
    · rw [hlen]
      have : r = new := List.mem_singleton.mp h1
      subst this
      exact hnr
  · rw [List.append_nil, List.flatten_append]
    simp only [List.flatten, List.flatten_nil, List.append_nil]
    rw [← List.append_assoc]
    exact serial_push (L.flatten ++ buf) new ac hser hns

theorem step_inv (tmpl : List (String × String)) (nO nI nW ln : Nat)
    (rec : AtomRecord) (s s1 : RState)
    (hp : Inv s) (h : step tmpl nO nI nW ln rec s = .ok s1) : Inv s1 := by
  obtain ⟨L, hout, hlen, hres, hser, hbuf, hionb⟩ := hp
  unfold step at h
  by_cases hd : s.molType = MolType.done
  · rw [if_pos hd] at h
    injection h with h1
    subst h1
    exact ⟨L, hout, hlen, hres, hser, hbuf, hionb⟩
  · rw [if_neg hd] at h
    cases hc : rec.coords with
    | none => rw [hc] at h; simp at h
    | some xyz =>
      rw [hc] at h
      cases hmt : s.molType with
      | done => exact absurd hmt hd
      | oligomer =>
        simp only [hmt] at h
        cases hg : tmpl[s.atomInMolIdx]? with
        | none => simp only [hg] at h; simp at h
        | some tgt =>
          simp only [hg] at h
          by_cases hne : get_pdb_element rec ≠ tgt.2
          · rw [if_pos hne] at h; simp at h
          · rw [if_neg hne] at h
            by_cases hclose : s.atomInMolIdx + 1 = tmpl.length
            · rw [if_pos hclose] at h
              have hblock := inv_close_block L s.buffer
                ⟨s.atomCounter + 1, tgt.1, "MOL", s.residueCounter + 1, xyz⟩
                s.out s.atomCounter s.residueCounter hout hlen hres hser hbuf rfl rfl
              by_cases htr : s.molIdx + 1 = nO
              · rw [if_pos htr] at h
                injection h with h1
                subst h1
                exact ⟨L ++ [s.buffer ++
                    [(⟨s.atomCounter + 1, tgt.1, "MOL", s.residueCounter + 1, xyz⟩ : FmtRec)]],
                  hblock.1, hblock.2.1, hblock.2.2.1, hblock.2.2.2, by simp, by simp⟩
              · rw [if_neg htr] at h
                injection h with h1
                subst h1
                exact ⟨L ++ [s.buffer ++
                    [(⟨s.atomCounter + 1, tgt.1, "MOL", s.residueCounter + 1, xyz⟩ : FmtRec)]],
                  hblock.1, hblock.2.1, hblock.2.2.1, hblock.2.2.2, by simp, by simp⟩
            · rw [if_neg hclose] at h
              injection h with h1
              subst h1
              refine ⟨L, hout, hlen, hres, ?_, ?_, ?_⟩
              · simp only []
                rw [← List.append_assoc]
                exact serial_push (L.flatten ++ s.buffer)
                  ⟨s.atomCounter + 1, tgt.1, "MOL", s.residueCounter + 1, xyz⟩
                  s.atomCounter hser rfl
              · intro r hr
                rcases List.mem_append.mp hr with h1 | h1
                · exact hbuf r h1
                · have : r = ⟨s.atomCounter + 1, tgt.1, "MOL", s.residueCounter + 1, xyz⟩ :=
                    List.mem_singleton.mp h1
                  subst this
                  rfl
              · intro hion
                simp at hion
      | ion =>
        simp only [hmt] at h
        have hbe : s.buffer = [] := hionb hmt
        by_cases hne : get_pdb_element rec ≠ "Cl"
        · rw [if_pos hne] at h; simp at h
        · rw [if_neg hne] at h
          have hblock := inv_close_block L s.buffer
            ⟨s.atomCounter + 1, "Cl-", "Cl-", s.residueCounter + 1, xyz⟩
            s.out s.atomCounter s.residueCounter hout hlen hres hser hbuf rfl rfl
          have hshape : s.out ++
              [OutLine.atom ⟨s.atomCounter + 1, "Cl-", "Cl-", s.residueCounter + 1, xyz⟩,
               OutLine.ter] =
              s.out ++ (s.buffer ++
                [(⟨s.atomCounter + 1, "Cl-", "Cl-", s.residueCounter + 1, xyz⟩ : FmtRec)]).map
                  OutLine.atom ++ [OutLine.ter] := by
            rw [hbe]
            simp
          by_cases htr : s.molIdx + 1 = nI
          · rw [if_pos htr] at h
            injection h with h1
            subst h1
            refine ⟨L ++ [s.buffer ++
                [(⟨s.atomCounter + 1, "Cl-", "Cl-", s.residueCounter + 1, xyz⟩ : FmtRec)]],
              ?_, hblock.2.1, hblock.2.2.1, ?_, ?_, ?_⟩
            · show s.out ++ [OutLine.atom ⟨s.atomCounter + 1, "Cl-", "Cl-",
                s.residueCounter + 1, xyz⟩, OutLine.ter] = _
              rw [hshape]
              exact hblock.1
            · show ((L ++ [s.buffer ++
                [(⟨s.atomCounter + 1, "Cl-", "Cl-", s.residueCounter + 1, xyz⟩ : FmtRec)]]).flatten ++
                  s.buffer).map FmtRec.serial = _
              rw [hbe] at hblock
              rw [hbe]
              exact hblock.2.2.2
            · intro r hr
              simp [hbe] at hr
            · intro _
              exact hbe
          · rw [if_neg htr] at h
            injection h with h1
            subst h1
            refine ⟨L ++ [s.buffer ++
                [(⟨s.atomCounter + 1, "Cl-", "Cl-", s.residueCounter + 1, xyz⟩ : FmtRec)]],
              ?_, hblock.2.1, hblock.2.2.1, ?_, ?_, ?_⟩
            · show s.out ++ [OutLine.atom ⟨s.atomCounter + 1, "Cl-", "Cl-",
                s.residueCounter + 1, xyz⟩, OutLine.ter] = _
              rw [hshape]
              exact hblock.1
            · show ((L ++ [s.buffer ++
                [(⟨s.atomCounter + 1, "Cl-", "Cl-", s.residueCounter + 1, xyz⟩ : FmtRec)]]).flatten ++
                  s.buffer).map FmtRec.serial = _
              rw [hbe] at hblock
              rw [hbe]
              exact hblock.2.2.2
            · intro r hr
              simp [hbe] at hr
            · intro _
              exact hbe
      | water =>
        simp only [hmt] at h
        cases hg : waterTable[s.atomInMolIdx]? with
        | none => simp only [hg] at h; simp at h
        | some wt =>
          simp only [hg] at h
          by_cases hne : get_pdb_element rec ≠ wt.2
          · rw [if_pos hne] at h; simp at h
          · rw [if_neg hne] at h
            by_cases hclose : s.atomInMolIdx + 1 = 3
            · rw [if_pos hclose] at h
              injection h with h1
              subst h1
              have hblock := inv_close_block L s.buffer
                ⟨s.atomCounter + 1, wt.1, "WAT", s.residueCounter + 1, xyz⟩
                s.out s.atomCounter s.residueCounter hout hlen hres hser hbuf rfl rfl
              refine ⟨L ++ [s.buffer ++
                  [(⟨s.atomCounter + 1, wt.1, "WAT", s.residueCounter + 1, xyz⟩ : FmtRec)]],
                hblock.1, hblock.2.1, hblock.2.2.1, hblock.2.2.2, by simp, ?_⟩
              intro hion
              by_cases htr : s.molIdx + 1 = nW
              · simp [if_pos htr] at hion
              · simp [if_neg htr] at hion
            · rw [if_neg hclose] at h
              injection h with h1
              subst h1
              refine ⟨L, hout, hlen, hres, ?_, ?_, ?_⟩
              · simp only []
                rw [← List.append_assoc]
                exact serial_push (L.flatten ++ s.buffer)
                  ⟨s.atomCounter + 1, wt.1, "WAT", s.residueCounter + 1, xyz⟩
                  s.atomCounter hser rfl
              · intro r hr
                rcases List.mem_append.mp hr with h1 | h1
                · exact hbuf r h1
                · have : r = ⟨s.atomCounter + 1, wt.1, "WAT", s.residueCounter + 1, xyz⟩ :=
                    List.mem_singleton.mp h1
                  subst this
                  rfl
              · intro hion
                simp at hion

/-! Extraction-artifact invariant -/

theorem inv_initState : Inv initState := by
  refine ⟨[], rfl, rfl, ?_, ?_, ?_, ?_⟩
  · intro i b hi
    simp at hi
  · simp [initState]
  · intro r hr
    simp [initState] at hr
  · intro _
    rfl

theorem exInv_initState (tmpl : List (String × String)) : ExInv tmpl initState := by
  refine ⟨?_, ?_, ?_, ?_, ?_⟩
  · intro _
    exact ⟨rfl, rfl, rfl⟩
  · intro h
    simp [initState] at h
  · simp [initState]
  · intro r hr
    simp [initState] at hr
  · simp [initState]

theorem step_exinv (tmpl : List (String × String)) (nO nI nW ln : Nat)
    (rec : AtomRecord) (s s1 : RState)
    (hp : ExInv tmpl s) (h : step tmpl nO nI nW ln rec s = .ok s1) : ExInv tmpl s1 := by
  obtain ⟨hx1, hx2, hx3, hx4, hx5⟩ := hp
  unfold step at h
  by_cases hd : s.molType = MolType.done
  · rw [if_pos hd] at h
    injection h with h1
    subst h1
    exact ⟨hx1, hx2, hx3, hx4, hx5⟩
  · rw [if_neg hd] at h
    cases hc : rec.coords with
    | none => rw [hc] at h; simp at h
    | some xyz =>
      rw [hc] at h
      have hnotolig : s.molType ≠ MolType.oligomer → s.extracting = false := by
        intro hno
        cases hev : s.extracting with
        | false => rfl
        | true => exact absurd (hx1 hev).1 hno
      cases hmt : s.molType with
      | done => exact absurd hmt hd
      | ion =>
        simp only [hmt] at h
        have hef : s.extracting = false := hnotolig (by rw [hmt]; simp)
        by_cases htr : s.molIdx + 1 = nI
        · rw [if_pos htr] at h
          by_cases hne : get_pdb_element rec ≠ "Cl"
          · rw [if_pos hne] at h; simp at h
          · rw [if_neg hne] at h
            injection h with h1
            subst h1
            refine ⟨?_, fun _ => hx2 hef, hx3, hx4, hx5⟩
            intro hev
            have hev1 : s.extracting = true := hev
            rw [hef] at hev1
            exact absurd hev1 (by simp)
        · rw [if_neg htr] at h
          by_cases hne : get_pdb_element rec ≠ "Cl"
          · rw [if_pos hne] at h; simp at h
          · rw [if_neg hne] at h
            injection h with h1
            subst h1
            refine ⟨?_, fun _ => hx2 hef, hx3, hx4, hx5⟩
            intro hev
            have hev1 : s.extracting = true := hev
            rw [hef] at hev1
            exact absurd hev1 (by simp)
      | water =>
        simp only [hmt] at h
        have hef : s.extracting = false := hnotolig (by rw [hmt]; simp)
        cases hg : waterTable[s.atomInMolIdx]? with
        | none => simp only [hg] at h; simp at h
        | some wt =>
          simp only [hg] at h
          by_cases hne : get_pdb_element rec ≠ wt.2
          · rw [if_pos hne] at h; simp at h
          · rw [if_neg hne] at h
            by_cases hclose : s.atomInMolIdx + 1 = 3
            · rw [if_pos hclose] at h
              injection h with h1
              subst h1
              refine ⟨?_, fun _ => hx2 hef, hx3, hx4, hx5⟩
              intro hev
              have hev1 : s.extracting = true := hev
              rw [hef] at hev1
              exact absurd hev1 (by simp)
            · rw [if_neg hclose] at h
              injection h with h1
              subst h1
              refine ⟨?_, fun _ => hx2 hef, hx3, hx4, hx5⟩
              intro hev
              have hev1 : s.extracting = true := hev
              rw [hef] at hev1
              exact absurd hev1 (by simp)
      | oligomer =>
        simp only [hmt] at h
        cases hg : tmpl[s.atomInMolIdx]? with
        | none => simp only [hg] at h; simp at h
        | some tgt =>
          simp only [hg] at h
          by_cases hne : get_pdb_element rec ≠ tgt.2
          · rw [if_pos hne] at h; simp at h
          · rw [if_neg hne] at h
            have hpe : get_pdb_element rec = tgt.2 := not_not.mp hne
            by_cases hev : s.extracting = true
            · rw [if_pos hev] at h
              obtain ⟨hmol, hmi, hlenx⟩ := hx1 hev
              have hx3l : s.extract.map FmtRec.serial = List.range' 1 s.atomInMolIdx := by
                rw [hx3, hlenx]
              have hser1 : (s.extract ++
                  [(⟨s.atomInMolIdx + 1, get_pdb_element rec, "MOL", 1, xyz⟩ : FmtRec)]).map
                    FmtRec.serial = List.range' 1 (s.atomInMolIdx + 1) := by
                refine serial_push s.extract _ s.atomInMolIdx hx3l ?_
                simp
              have hlen1 : (s.extract ++
                  [(⟨s.atomInMolIdx + 1, get_pdb_element rec, "MOL", 1, xyz⟩ : FmtRec)]).length =
                  s.atomInMolIdx + 1 := by
                simp [hlenx]
              have hres1 : ∀ r ∈ s.extract ++
                  [(⟨s.atomInMolIdx + 1, get_pdb_element rec, "MOL", 1, xyz⟩ : FmtRec)],
                  r.resNum = 1 := by
                intro r hr
                rcases List.mem_append.mp hr with h1 | h1
                · exact hx4 r h1
                · rw [List.mem_singleton.mp h1]
              have hname1 : (s.extract ++
                  [(⟨s.atomInMolIdx + 1, get_pdb_element rec, "MOL", 1, xyz⟩ : FmtRec)]).map
                    FmtRec.name = (tmpl.take (s.atomInMolIdx + 1)).map Prod.snd := by
                rw [List.map_append, hx5, hlenx, List.take_succ, hg]
                simp [hpe]
              by_cases hclose : s.atomInMolIdx + 1 = tmpl.length
              · rw [if_pos hclose] at h
                by_cases htr : s.molIdx + 1 = nO
                · rw [if_pos htr] at h
                  injection h with h1
                  subst h1
                  refine ⟨?_, ?_, ?_, hres1, ?_⟩
                  · intro hev1
                    have hev2 : false = true := hev1
                    exact absurd hev2 (by simp)
                  · intro _
                    rw [hlen1, hclose]
                  · rw [hlen1]
                    exact hser1
                  · rw [hlen1]
                    exact hname1
                · rw [if_neg htr] at h
                  injection h with h1
                  subst h1
                  refine ⟨?_, ?_, ?_, hres1, ?_⟩
                  · intro hev1
                    have hev2 : false = true := hev1
                    exact absurd hev2 (by simp)
                  · intro _
                    rw [hlen1, hclose]
                  · rw [hlen1]
                    exact hser1
                  · rw [hlen1]
                    exact hname1
              · rw [if_neg hclose] at h
                injection h with h1
                subst h1
                refine ⟨?_, ?_, ?_, hres1, ?_⟩
                · intro _
                  exact ⟨rfl, hmi, by rw [hlen1]⟩
                · intro hev0
                  have hev1 : s.extracting = false := hev0
                  rw [hev] at hev1
                  exact absurd hev1 (by simp)
                · rw [hlen1]
                  exact hser1
                · rw [hlen1]
                  exact hname1
            · have hef : s.extracting = false := by
                revert hev
                cases s.extracting <;> simp
              rw [if_neg hev] at h
              by_cases hclose : s.atomInMolIdx + 1 = tmpl.length
              · rw [if_pos hclose] at h
                by_cases htr : s.molIdx + 1 = nO
                · rw [if_pos htr] at h
                  injection h with h1
                  subst h1
                  refine ⟨?_, fun _ => hx2 hef, hx3, hx4, hx5⟩
                  intro hev1
                  have hev2 : false = true := hev1
                  exact absurd hev2 (by simp)
                · rw [if_neg htr] at h
                  injection h with h1
                  subst h1
                  refine ⟨?_, fun _ => hx2 hef, hx3, hx4, hx5⟩
                  intro hev1
                  have hev2 : false = true := hev1
                  exact absurd hev2 (by simp)
              · rw [if_neg hclose] at h
                injection h with h1
                subst h1
                refine ⟨?_, fun _ => hx2 hef, hx3, hx4, hx5⟩
                intro hev1
                have hev2 : s.extracting = true := hev1
                rw [hef] at hev2
                exact absurd hev2 (by simp)

/-! Output shape lemmas -/

theorem atomsOf_append (a b : List OutLine) : atomsOf (a ++ b) = atomsOf a ++ atomsOf b := by
  simp [atomsOf, List.filterMap_append]

theorem atomsOf_map_atom (b : List FmtRec) : atomsOf (b.map OutLine.atom) = b := by
  induction b with
  | nil => rfl
  | cons r rs ih => simp [atomsOf, List.filterMap_cons] at ih ⊢; exact ih

theorem atomsOf_map_header (hs : List String) : atomsOf (hs.map OutLine.header) = [] := by
  induction hs with
  | nil => rfl
  | cons x xs ih => simp only [List.map_cons, atomsOf, List.filterMap_cons] at ih ⊢; exact ih

theorem atomsOf_flatResidues (L : List (List FmtRec)) :
    atomsOf (flatResidues L) = L.flatten := by
  induction L with
  | nil => rfl
  | cons b bs ih =>
    have hshape : flatResidues (b :: bs) =
        (b.map OutLine.atom ++ [OutLine.ter]) ++ flatResidues bs := by
      simp [flatResidues]
    rw [hshape, atomsOf_append, atomsOf_append, atomsOf_map_atom, ih]
    simp [atomsOf, List.filterMap_cons]

theorem blocksAux_headers (hs : List String) (rest : List OutLine) (acc : List FmtRec) :
    blocksAux (hs.map OutLine.header ++ rest) acc = blocksAux rest acc := by
  induction hs with
  | nil => rfl
  | cons x xs ih =>
    simp only [List.map_cons, List.cons_append, blocksAux, List.append_eq]
    exact ih

theorem blocksAux_block (b : List FmtRec) :
    ∀ (rest : List OutLine) (acc : List FmtRec),
      blocksAux ((b.map OutLine.atom ++ [OutLine.ter]) ++ rest) acc =
        (acc ++ b) :: blocksAux rest [] := by
  induction b with
  | nil => intro rest acc; simp [blocksAux]
  | cons r rs ih =>
    intro rest acc
    simp only [List.map_cons, List.cons_append, blocksAux, List.append_eq]
    rw [ih rest (acc ++ [r])]
    simp

theorem blocksOf_main (hs : List String) (L : List (List FmtRec)) :
    blocksOf (hs.map OutLine.header ++ (flatResidues L ++ [OutLine.endMark])) = L := by
  unfold blocksOf
  rw [blocksAux_headers]
  induction L with
  | nil => rfl
  | cons b bs ih =>
    have hshape : flatResidues (b :: bs) ++ [OutLine.endMark] =
        (b.map OutLine.atom ++ [OutLine.ter]) ++ (flatResidues bs ++ [OutLine.endMark]) := by
      simp [flatResidues]
    rw [hshape, blocksAux_block]
    simp [ih]

theorem mem_flatten_of_atom_mem_flatResidues (L : List (List FmtRec)) (r : FmtRec)
    (h : OutLine.atom r ∈ flatResidues L) : r ∈ L.flatten := by
  induction L with
  | nil => simp [flatResidues] at h
  | cons b bs ih =>
    have hshape : flatResidues (b :: bs) =
        (b.map OutLine.atom ++ [OutLine.ter]) ++ flatResidues bs := by
      simp [flatResidues]
    rw [hshape] at h
    rcases List.mem_append.mp h with h1 | h1
    · rcases List.mem_append.mp h1 with h2 | h2
      · rcases List.mem_map.mp h2 with ⟨x, hx, hxe⟩
        have hxr : x = r := by injection hxe
        subst hxr
        rw [List.flatten_cons]
        exact List.mem_append.mpr (Or.inl hx)
      · have := List.mem_singleton.mp h2
        exact absurd this (by simp)
    · rw [List.flatten_cons]
      exact List.mem_append.mpr (Or.inr (ih h1))

/-- C1 counterexample: a run on a one-atom template (canonical name C1,
element C) completes its first unit without error and closes the artifact,
yet the artifact's atom-name field holds the classified element C, not the
template's canonical name C1: the source writes pdb_element, not
target_name, into the extraction file. -/
theorem claimC1_counterexample :
    (process_pdb tmplC (64, 48, 1624) [RawLine.atomLine recC1]).map
        (fun o => (o.err, o.extractClosed, o.extract.map FmtRec.name)) =
      some (none, true, ["C"]) ∧
    tmplC.map Prod.fst = ["C1"] ∧
    (["C"] : List String) ≠ ["C1"] := by
  refine ⟨by decide, rfl, by decide⟩

/-- C1 as amended: whenever the first repeated unit completes (the
artifact is closed), the artifact holds exactly atoms_per_unit lines with
serials 1..N in order and residue number 1 throughout, and its atom names
are the template's expected ELEMENTS, position by position (equal to the
classified elements of the first unit's records), not the template's
canonical names; the artifact receives no lines after the first unit. -/
theorem claimC1_extraction_artifact (tmpl : List (String × String))
    (manual : Nat × Nat × Nat) (lines : List RawLine) (o : POut)
    (hrun : process_pdb tmpl manual lines = some o)
    (hclosed : o.extractClosed = true) :
    o.extract.length = tmpl.length ∧
    o.extract.map FmtRec.serial = List.range' 1 tmpl.length ∧
    (∀ r ∈ o.extract, r.resNum = 1) ∧
    o.extract.map FmtRec.name = tmpl.map Prod.snd := by
  simp only [process_pdb] at hrun
  rcases Option.map_eq_some'.mp hrun with ⟨c, hc, ho⟩
  subst ho
  have hex := runLoop_pres (ExInv tmpl) tmpl c.1 c.2.1 c.2.2
    (fun ln rec s s1 hp hs => step_exinv tmpl c.1 c.2.1 c.2.2 ln rec s s1 hp hs)
    (splitLines lines).2 1 initState (exInv_initState tmpl)
  cases hrp : runLoop tmpl c.1 c.2.1 c.2.2 (splitLines lines).2 1 initState with
  | mk sf ef =>
    rw [hrp] at hex
    obtain ⟨hx1, hx2, hx3, hx4, hx5⟩ := hex
    cases ef with
    | none =>
      simp only [processAtoms, hrp] at hclosed ⊢
      have hef : sf.extracting = false := by simpa using hclosed
      have hlen := hx2 hef
      refine ⟨hlen, ?_, hx4, ?_⟩
      · rw [hx3, hlen]
      · rw [hx5, hlen, List.take_length]
    | some e =>
      simp only [processAtoms, hrp] at hclosed ⊢
      have hef : sf.extracting = false := by simpa using hclosed
      have hlen := hx2 hef
      refine ⟨hlen, ?_, hx4, ?_⟩
      · rw [hx3, hlen]
      · rw [hx5, hlen, List.take_length]

theorem claimC1_witness :
    outC1.extract.length = tmplC.length ∧
    outC1.extract.map FmtRec.name = tmplC.map Prod.snd := by
  have h := claimC1_extraction_artifact tmplC (64, 48, 1624) [RawLine.atomLine recC1]
    outC1 (by decide) rfl
  exact ⟨h.1, h.2.2.2⟩

/-! Unit-phase single-step specification and prefix run -/

theorem step_olig_spec (tmpl : List (String × String)) (nO nI nW ln : Nat)
    (rec : AtomRecord) (s : RState) (c : Coord) (tgt : String × String)
    (holig : s.molType = .oligomer) (hc : rec.coords = some c)
    (hg : tmpl[s.atomInMolIdx]? = some tgt) :
    (get_pdb_element rec ≠ tgt.2 →
      step tmpl nO nI nW ln rec s =
        .error (.oligMismatch ln tgt.1 tgt.2 (get_pdb_element rec))) ∧
    (get_pdb_element rec = tgt.2 →
      (s.atomInMolIdx + 1 = tmpl.length →
        step tmpl nO nI nW ln rec s = .ok
          { atomCounter := s.atomCounter + 1
            residueCounter := s.residueCounter + 1
            molType := if s.molIdx + 1 = nO then
                (if nI > 0 then MolType.ion else if nW > 0 then MolType.water
                 else MolType.done)
              else MolType.oligomer
            molIdx := if s.molIdx + 1 = nO then 0 else s.molIdx + 1
            atomInMolIdx := 0
            buffer := []
            out := s.out ++ (s.buffer ++
              [(⟨s.atomCounter + 1, tgt.1, "MOL", s.residueCounter + 1, c⟩ : FmtRec)]).map
                OutLine.atom ++ [OutLine.ter]
            extract := if s.extracting then s.extract ++
              [(⟨s.atomInMolIdx + 1, get_pdb_element rec, "MOL", 1, c⟩ : FmtRec)]
              else s.extract
            extracting := false }) ∧
      (s.atomInMolIdx + 1 ≠ tmpl.length →
        step tmpl nO nI nW ln rec s = .ok
          { s with
            atomCounter := s.atomCounter + 1
            atomInMolIdx := s.atomInMolIdx + 1
            buffer := s.buffer ++
              [(⟨s.atomCounter + 1, tgt.1, "MOL", s.residueCounter + 1, c⟩ : FmtRec)]
            extract := if s.extracting then s.extract ++
              [(⟨s.atomInMolIdx + 1, get_pdb_element rec, "MOL", 1, c⟩ : FmtRec)]
              else s.extract })) := by
  have hnd : ¬ s.molType = MolType.done := by rw [holig]; simp
  refine ⟨?_, ?_⟩
  · intro hne
    unfold step
    rw [if_neg hnd, hc, holig]
    simp [hg, hne]
  · intro heq
    refine ⟨?_, ?_⟩
    · intro hcl
      unfold step
      rw [if_neg hnd, hc, holig]
      by_cases htr : s.molIdx + 1 = nO
      · simp [hg, heq, hcl, htr]
      · simp [hg, heq, hcl, htr]
    · intro hcl
      unfold step
      rw [if_neg hnd, hc, holig]
      simp [hg, heq, hcl]

theorem divmod_step (apu j : Nat) (h : 1 ≤ apu) :
    (j % apu + 1 = apu → (j + 1) % apu = 0 ∧ (j + 1) / apu = j / apu + 1) ∧
    (j % apu + 1 < apu → (j + 1) % apu = j % apu + 1 ∧ (j + 1) / apu = j / apu) := by
  have hd := Nat.div_add_mod j apu
  constructor
  · intro hc
    have hj : j + 1 = apu * (j / apu + 1) := by
      rw [Nat.mul_succ]
      omega
    constructor
    · rw [hj, Nat.mul_mod_right]
    · rw [hj, Nat.mul_div_cancel_left _ (by omega : 0 < apu)]
  · intro hc
    have hj : j + 1 = apu * (j / apu) + (j % apu + 1) := by omega
    constructor
    · rw [hj, Nat.mul_add_mod, Nat.mod_eq_of_lt hc]
    · rw [hj, Nat.mul_add_div (by omega : 0 < apu), Nat.div_eq_of_lt hc]
      omega

theorem unit_prefix_run (tmpl : List (String × String)) (nO nI nW : Nat)
    (recs : List AtomRecord) (k : Nat)
    (hapu : 1 ≤ tmpl.length) (hklt : k < nO * tmpl.length) (hkle : k ≤ recs.length)
    (hmatch : ∀ j, j < k → matchOkB tmpl recs j = true) :
    ∀ j, j ≤ k →
      ∃ sf, runLoop tmpl nO nI nW (recs.take j) 1 initState = (sf, none) ∧
        sf.molType = .oligomer ∧ sf.atomCounter = j ∧
        sf.molIdx = j / tmpl.length ∧ sf.atomInMolIdx = j % tmpl.length ∧
        sf.buffer.length = j % tmpl.length := by
  intro j
  induction j with
  | zero =>
    intro _
    exact ⟨initState, by simp [runLoop], rfl, rfl, by simp [initState],
      by simp [initState], by simp [initState]⟩
  | succ j ih =>
    intro hj1
    obtain ⟨sf, hrun, hmol, hac, hmi, hai, hbl⟩ := ih (by omega)
    have hjlen : j < recs.length := by omega
    obtain ⟨r, hr⟩ : ∃ r, recs[j]? = some r :=
      ⟨recs.get ⟨j, hjlen⟩, List.getElem?_eq_getElem hjlen⟩
    have hm := hmatch j (by omega)
    unfold matchOkB at hm
    rw [hr] at hm
    have hmodlt : j % tmpl.length < tmpl.length := Nat.mod_lt _ (by omega)
    obtain ⟨tg, htg⟩ : ∃ tg, tmpl[j % tmpl.length]? = some tg :=
      ⟨tmpl.get ⟨j % tmpl.length, hmodlt⟩, List.getElem?_eq_getElem hmodlt⟩
    rw [htg] at hm
    rw [Bool.and_eq_true] at hm
    have hco : r.coords.isSome = true := hm.1
    have hel : get_pdb_element r = tg.2 := eq_of_beq hm.2
    obtain ⟨xyz, hxyz⟩ := Option.isSome_iff_exists.mp hco
    have htake : recs.take (j + 1) = recs.take j ++ [r] := by
      rw [List.take_succ, hr]
      rfl
    have hlt : (recs.take j).length = j := by
      rw [List.length_take]
      omega
    have hgoal : runLoop tmpl nO nI nW (recs.take (j + 1)) 1 initState =
        runLoop tmpl nO nI nW [r] (1 + j) sf := by
      rw [htake, runLoop_append, hrun]
      dsimp only
      rw [hlt]
    rw [hgoal]
    have hspec := (step_olig_spec tmpl nO nI nW (1 + j) r sf xyz tg hmol hxyz
      (by rw [hai]; exact htg)).2 hel
    by_cases hcl : j % tmpl.length + 1 = tmpl.length
    · have hs2 := hspec.1 (by rw [hai]; exact hcl)
      obtain ⟨hm0, hd1⟩ := (divmod_step tmpl.length j hapu).1 hcl
      have hjj : j + 1 = tmpl.length * (j / tmpl.length + 1) := by
        have hd := Nat.div_add_mod j tmpl.length
        rw [Nat.mul_succ]
        omega
      have htr : ¬ (sf.molIdx + 1 = nO) := by
        rw [hmi]
        intro hEq
        rw [hEq] at hjj
        have hcomm : tmpl.length * nO = nO * tmpl.length := Nat.mul_comm _ _
        omega
      refine ⟨(runLoop tmpl nO nI nW [r] (1 + j) sf).1, ?_, ?_, ?_, ?_, ?_, ?_⟩
      · simp only [runLoop, hs2]
      · simp only [runLoop, hs2]
        rw [if_neg htr]
      · simp only [runLoop, hs2]
        omega
      · simp only [runLoop, hs2]
        rw [if_neg htr, hmi, hd1]
      · simp only [runLoop, hs2]
        omega
      · simp only [runLoop, hs2, List.length_nil]
        omega
    · have hcllt : j % tmpl.length + 1 < tmpl.length := by omega
      have hs3 := hspec.2 (by rw [hai]; exact hcl)
      obtain ⟨hm1, hd1⟩ := (divmod_step tmpl.length j hapu).2 hcllt
      refine ⟨(runLoop tmpl nO nI nW [r] (1 + j) sf).1, ?_, ?_, ?_, ?_, ?_, ?_⟩
      · simp only [runLoop, hs3]
      · simp only [runLoop, hs3]
        exact hmol
      · simp only [runLoop, hs3]
        omega
      · simp only [runLoop, hs3]
        rw [hmi, hd1]
      · simp only [runLoop, hs3]
        omega
      · simp only [runLoop, hs3]
        simp [List.length_append]
        omega

theorem inv_out_serials (s : RState) (hp : Inv s) :
    (atomsOf s.out).map FmtRec.serial =
      List.range' 1 (s.atomCounter - s.buffer.length) ∧
    (atomsOf s.out).length = s.atomCounter - s.buffer.length := by
  obtain ⟨L, hout, _, _, hser, _, _⟩ := hp
  have hA : atomsOf s.out = L.flatten := by
    rw [hout, atomsOf_flatResidues]
  have hlenW : L.flatten.length + s.buffer.length = s.atomCounter := by
    have hl := congrArg List.length hser
    simp only [List.length_map, List.length_append, List.length_range'] at hl
    exact hl
  have hsplit : List.range' 1 s.atomCounter =
      List.range' 1 L.flatten.length ++
        List.range' (1 + L.flatten.length) (s.atomCounter - L.flatten.length) := by
    rw [List.range'_append_1]
    congr 1
    omega
  rw [List.map_append] at hser
  have h2 := hser.trans hsplit
  have h3 := (List.append_inj h2 (by rw [List.length_map, List.length_range'])).1
  have hW : L.flatten.length = s.atomCounter - s.buffer.length := by omega
  refine ⟨?_, ?_⟩
  · rw [hA, h3, hW]
  · rw [hA, hW]

/-- C3: if every record before position k (0-based among the atom records)
parses and classifies to the template element at its unit position, k lies
inside the unit segment, and record k parses but classifies to an element
different from the template's expected element at its position, then the
run aborts at exactly that record: the error is the unit-phase mismatch
carrying the 1-based record index k+1 and the expected name/element and
found element, the machine has consumed exactly k records, and the output
contains only the atoms of the complete units before the failing unit
(serials 1..k - k % atoms_per_unit and nothing further): no output record
of the failing unit or any later unit is emitted. -/
theorem claimC3_fail_fast (tmpl : List (String × String)) (nO nI nW k : Nat)
    (recs : List AtomRecord) (r : AtomRecord) (tg : String × String) (c : Coord)
    (hapu : 1 ≤ tmpl.length)
    (hklt : k < nO * tmpl.length)
    (hr : recs[k]? = some r)
    (hmatch : ∀ j, j < k → matchOkB tmpl recs j = true)
    (htg : tmpl[k % tmpl.length]? = some tg)
    (hc : r.coords = some c)
    (hne : get_pdb_element r ≠ tg.2) :
    (runLoop tmpl nO nI nW recs 1 initState).2 =
      some (.oligMismatch (k + 1) tg.1 tg.2 (get_pdb_element r)) ∧
    (runLoop tmpl nO nI nW recs 1 initState).1.atomCounter = k ∧
    (atomsOf (runLoop tmpl nO nI nW recs 1 initState).1.out).map FmtRec.serial =
      List.range' 1 (k - k % tmpl.length) ∧
    (atomsOf (runLoop tmpl nO nI nW recs 1 initState).1.out).length =
      k - k % tmpl.length := by
  have hklen : k < recs.length := (List.getElem?_eq_some_iff.mp hr).1
  obtain ⟨sf, hrun, hmol, hac, hmi, hai, hbl⟩ :=
    unit_prefix_run tmpl nO nI nW recs k hapu hklt (by omega) hmatch k (le_refl k)
  have hinv0 := runLoop_pres Inv tmpl nO nI nW
    (fun ln rec s s1 hp hs => step_inv tmpl nO nI nW ln rec s s1 hp hs)
    (recs.take k) 1 initState inv_initState
  rw [hrun] at hinv0
  have hdrop : recs.drop k = r :: recs.drop (k + 1) := by
    rw [List.drop_eq_getElem_cons hklen]
    have hrv : recs[k] = r := (List.getElem?_eq_some_iff.mp hr).2
    rw [hrv]
  have hsplit2 : recs = recs.take k ++ (r :: recs.drop (k + 1)) := by
    rw [← hdrop, List.take_append_drop]
  have hlt : (recs.take k).length = k := by
    rw [List.length_take]
    omega
  have herrstep := (step_olig_spec tmpl nO nI nW (1 + k) r sf c tg hmol hc
    (by rw [hai]; exact htg)).1 hne
  have hwhole : runLoop tmpl nO nI nW recs 1 initState =
      (sf, some (.oligMismatch (1 + k) tg.1 tg.2 (get_pdb_element r))) := by
    conv_lhs => rw [hsplit2]
    rw [runLoop_append, hrun]
    dsimp only
    rw [hlt]
    simp only [runLoop, herrstep]
  have hserials := inv_out_serials sf hinv0
  have hadd : 1 + k = k + 1 := Nat.add_comm 1 k
  rw [hwhole]
  refine ⟨by rw [hadd], hac, ?_, ?_⟩
  · have h1 := hserials.1
    rw [hac, hbl] at h1
    exact h1
  · have h2 := hserials.2
    rw [hac, hbl] at h2
    exact h2

theorem claimC3_witness :
    (runLoop tmplC 2 0 0 [recC1, recO] 1 initState).2 =
      some (.oligMismatch 2 "C1" "C" "O") ∧
    (runLoop tmplC 2 0 0 [recC1, recO] 1 initState).1.atomCounter = 1 ∧
    (atomsOf (runLoop tmplC 2 0 0 [recC1, recO] 1 initState).1.out).map FmtRec.serial =
      List.range' 1 1 := by
  have h := claimC3_fail_fast tmplC 2 0 0 1 [recC1, recO] recO ("C1", "C") (0, 0, 0)
    (by decide) (by decide) (by decide)
    (by
      intro j hj
      have hj0 : j = 0 := by omega
      subst hj0
      decide)
    (by decide) (by decide) (by decide)
  exact ⟨h.1, h.2.1, h.2.2.1⟩

/-- C5: in a run that does not abort, the atom serials across the whole
main output are 1, 2, 3, ... in emission order with no gaps; the
terminator-closed residues carry numbers 1, 2, 3, ... with every line of
residue i numbered i (never restarting); and residue numbering restarts at
1 only inside the extraction artifact, whose lines all carry residue
number 1. -/
theorem claimC5_monotonic_numbering (tmpl : List (String × String))
    (manual : Nat × Nat × Nat) (lines : List RawLine) (o : POut)
    (hrun : process_pdb tmpl manual lines = some o) (herr : o.err = none) :
    (atomsOf o.main).map FmtRec.serial = List.range' 1 (atomsOf o.main).length ∧
    (blocksOf o.main).length = o.residues ∧
    (∀ i b, (blocksOf o.main)[i]? = some b → ∀ r ∈ b, r.resNum = i + 1) ∧
    (∀ r ∈ o.extract, r.resNum = 1) := by
  simp only [process_pdb] at hrun
  rcases Option.map_eq_some'.mp hrun with ⟨c, hc, ho⟩
  subst ho
  have hinv := runLoop_pres Inv tmpl c.1 c.2.1 c.2.2
    (fun ln rec s s1 hp hs => step_inv tmpl c.1 c.2.1 c.2.2 ln rec s s1 hp hs)
    (splitLines lines).2 1 initState inv_initState
  have hex := runLoop_pres (ExInv tmpl) tmpl c.1 c.2.1 c.2.2
    (fun ln rec s s1 hp hs => step_exinv tmpl c.1 c.2.1 c.2.2 ln rec s s1 hp hs)
    (splitLines lines).2 1 initState (exInv_initState tmpl)
  cases hrp : runLoop tmpl c.1 c.2.1 c.2.2 (splitLines lines).2 1 initState with
  | mk sf ef =>
    rw [hrp] at hinv hex
    obtain ⟨L, hout, hlen, hres, hser, hbuf, hionb⟩ := hinv
    obtain ⟨hx1, hx2, hx3, hx4, hx5⟩ := hex
    cases ef with
    | some e =>
      simp only [processAtoms, hrp] at herr
      exact absurd herr (by simp)
    | none =>
      simp only [processAtoms, hrp]
      have hA : atomsOf ((splitLines lines).1.map OutLine.header ++ sf.out ++
          [OutLine.endMark]) = L.flatten := by
        rw [atomsOf_append, atomsOf_append, atomsOf_map_header, hout, atomsOf_flatResidues]
        simp [atomsOf, List.filterMap_cons]
      have hB : blocksOf ((splitLines lines).1.map OutLine.header ++ sf.out ++
          [OutLine.endMark]) = L := by
        rw [hout, List.append_assoc]
        exact blocksOf_main _ L
      have hserL : L.flatten.map FmtRec.serial = List.range' 1 L.flatten.length := by
        have hlenW : L.flatten.length + sf.buffer.length = sf.atomCounter := by
          have hl := congrArg List.length hser
          simp only [List.length_map, List.length_append, List.length_range'] at hl
          exact hl
        have hsplit : List.range' 1 sf.atomCounter =
            List.range' 1 L.flatten.length ++
              List.range' (1 + L.flatten.length) (sf.atomCounter - L.flatten.length) := by
          rw [List.range'_append_1]
          congr 1
          omega
        rw [List.map_append] at hser
        have h2 := hser.trans hsplit
        exact (List.append_inj h2 (by rw [List.length_map, List.length_range'])).1
      refine ⟨?_, ?_, ?_, hx4⟩
      · rw [hA]
        exact hserL
      · rw [hB]
        exact hlen
      · rw [hB]
        exact hres

theorem claimC5_witness :
    (atomsOf outC1.main).map FmtRec.serial = List.range' 1 (atomsOf outC1.main).length ∧
    (blocksOf outC1.main).length = 1 := by
  have h := claimC5_monotonic_numbering tmplC (64, 48, 1624) [RawLine.atomLine recC1]
    outC1 (by decide) rfl
  exact ⟨h.1, h.2.1⟩

/-- C8: in a run that terminates without a fatal error, the main output is
exactly the input's header lines verbatim in their original
order, then the terminator-closed residue blocks in processing order (one
terminator after each), then a single end-of-file marker; an incomplete
buffered residue left at end of stream is discarded without error — none
of its lines appear anywhere in the output. -/
theorem claimC8_output_shape (tmpl : List (String × String))
    (manual : Nat × Nat × Nat) (lines : List RawLine) (o : POut)
    (hrun : process_pdb tmpl manual lines = some o) (herr : o.err = none) :
    o.main = ((splitLines lines).1).map OutLine.header ++
      flatResidues (blocksOf o.main) ++ [OutLine.endMark] ∧
    (∀ r ∈ o.discarded, OutLine.atom r ∉ o.main) := by
  simp only [process_pdb] at hrun
  rcases Option.map_eq_some'.mp hrun with ⟨c, hc, ho⟩
  subst ho
  have hinv := runLoop_pres Inv tmpl c.1 c.2.1 c.2.2
    (fun ln rec s s1 hp hs => step_inv tmpl c.1 c.2.1 c.2.2 ln rec s s1 hp hs)
    (splitLines lines).2 1 initState inv_initState
  cases hrp : runLoop tmpl c.1 c.2.1 c.2.2 (splitLines lines).2 1 initState with
  | mk sf ef =>
    rw [hrp] at hinv
    obtain ⟨L, hout, hlen, hres, hser, hbuf, hionb⟩ := hinv
    cases ef with
    | some e =>
      simp only [processAtoms, hrp] at herr
      exact absurd herr (by simp)
    | none =>
      simp only [processAtoms, hrp]
      have hB : blocksOf ((splitLines lines).1.map OutLine.header ++ sf.out ++
          [OutLine.endMark]) = L := by
        rw [hout, List.append_assoc]
        exact blocksOf_main _ L
      constructor
      · rw [hB, ← hout, List.append_assoc]
      · intro r hr hmem
        rcases List.mem_append.mp hmem with h1 | h1
        · rcases List.mem_append.mp h1 with h2 | h2
          · rcases List.mem_map.mp h2 with ⟨x, _, hxe⟩
            exact absurd hxe (by simp)
          · rw [hout] at h2
            have hrL := mem_flatten_of_atom_mem_flatResidues L r h2
            have hnd : ((L.flatten ++ sf.buffer).map FmtRec.serial).Nodup := by
              rw [hser]
              exact List.nodup_range' _ _
            rw [List.map_append] at hnd
            have hdisj := List.disjoint_of_nodup_append hnd
            exact hdisj (List.mem_map_of_mem _ hrL) (List.mem_map_of_mem _ hr)
        · have := List.mem_singleton.mp h1
          exact absurd this (by simp)

theorem claimC8_witness :
    outC1.main = ((splitLines [RawLine.atomLine recC1]).1).map OutLine.header ++
      flatResidues (blocksOf outC1.main) ++ [OutLine.endMark] :=
  (claimC8_output_shape tmplC (64, 48, 1624) [RawLine.atomLine recC1]
    outC1 (by decide) rfl).1

theorem claimC4_witness :
    1 * tmplC.length + 0 + 3 * 0 ≤ ([recC1] : List AtomRecord).length ∧
    (runLoop tmplC 1 0 0 [recC1] 1 initState).1.atomCounter =
      1 * tmplC.length + 0 + 3 * 0 := by
  have h := claimC4_count_invariant tmplC [recC1] 1 0 0 (by decide)
  exact ⟨h.1, h.2 (by decide) (by decide)⟩

end PdbProc
